import Mathlib

/-!
Verification of the parameter-resolution and endpoint-override layer of
src/titiler/endpoints/stac.py.

The Python module is embedded shallowly:
  * query-parameter values of type Optional[str] become Option String;
  * the kwargs dictionaries built by the dataclass post-init hooks become
    association lists (insertion order preserved);
  * the Reader collaborator (rio_tiler_crs.STACReader) is an opaque
    behaviour record whose operations may raise;
  * the Python with-statement over a Reader is embedded as a combinator
    that counts release calls, and the handlers return that count;
  * keyword expansion in a Python call raises TypeError when two of the
    expanded mappings define the same key, which the merge function models.
-/

namespace Titiler

/-- Python values that can appear in the keyword-argument dictionaries of
this module: raw strings (the expression selector), lists of strings (the
parsed assets selector) and tuples of integers (the parsed band indexes). -/
inductive PyVal where
  | vStr (s : String)
  | vStrList (l : List String)
  | vNatTuple (l : List Nat)
  deriving DecidableEq, Repr

/-- Python errors relevant to this module: TypeError raised by duplicate
keyword arguments at a call site, and arbitrary errors raised by the opaque
Reader collaborator. -/
inductive PyErr where
  | typeError
  | readerError (msg : String)
  deriving DecidableEq, Repr

/-- Embedding of the Python expression raw.split with a one-comma separator,
as used on the assets selector: splitting the empty string yields a list
holding one empty string, and empty fields between or after commas are kept. -/
def splitCommaList : List Char → List (List Char)
  | [] => [[]]
  | c :: cs =>
    if c = ',' then [] :: splitCommaList cs
    else
      match splitCommaList cs with
      | [] => [[c]]
      | r :: rs => (c :: r) :: rs

/-- String-level wrapper of the assets split. -/
def pySplitComma (s : String) : List String :=
  (splitCommaList s.toList).map fun cs => String.mk cs

/-- Inverse of the comma split, used to state that splitting is verbatim. -/
def joinCommaList : List (List Char) → List Char
  | [] => []
  | [x] => x
  | x :: y :: ys => x ++ ',' :: joinCommaList (y :: ys)

/-- String-level comma join. -/
def pyJoinComma (l : List String) : String :=
  String.mk (joinCommaList (l.map String.toList))

/-- Scanner for the regular-expression search of maximal digit runs used on
the bidx selector, carrying the reversed current run as accumulator. -/
def digitRunsGo : List Char → List Char → List (List Char)
  | [], acc => if acc = [] then [] else [acc.reverse]
  | c :: cs, acc =>
    if c.isDigit then digitRunsGo cs (c :: acc)
    else if acc = [] then digitRunsGo cs []
    else acc.reverse :: digitRunsGo cs []

/-- Embedding of re.findall applied with a digits-only pattern: all maximal
runs of decimal digits, in order of appearance. -/
def digitRuns (cs : List Char) : List (List Char) := digitRunsGo cs []

/-- Embedding of Python int on a string of decimal digits. -/
def digitsToNat (cs : List Char) : Nat :=
  cs.foldl (fun n c => n * 10 + (c.toNat - 48)) 0

/-- Full bidx parse: digit runs of the raw string converted to integers. -/
def parseBidx (s : String) : List Nat :=
  (digitRuns s.toList).map digitsToNat

/-- A Python keyword-argument dictionary in insertion order. -/
abbrev Kwargs := List (String × PyVal)

/-- Dictionary lookup on the association-list embedding. -/
def lookupKw : Kwargs → String → Option PyVal
  | [], _ => none
  | kv :: rest, k => if kv.1 = k then some kv.2 else lookupKw rest k

/-- Embedding of AssetsBidxParams post-init: starting from the empty kwargs
container of the base dependency class, set the assets key when the assets
query value is present and the indexes key when the bidx query value is
present. The base container starting empty is taken from the spec, the
dependencies module being outside the embedded file. -/
def AssetsBidxParams.postInit (assets bidx : Option String) : Kwargs :=
  (match assets with
   | some a => [("assets", PyVal.vStrList (pySplitComma a))]
   | none => []) ++
  (match bidx with
   | some b => [("indexes", PyVal.vNatTuple (parseBidx b))]
   | none => [])

/-- Embedding of AssetsBidxExprParams post-init: like the asset-only
variant with the expression key set, when present, between the two. -/
def AssetsBidxExprParams.postInit (assets expr bidx : Option String) : Kwargs :=
  ((match assets with
    | some a => [("assets", PyVal.vStrList (pySplitComma a))]
    | none => []) ++
   (match expr with
    | some e => [("expression", PyVal.vStr e)]
    | none => [])) ++
  (match bidx with
   | some b => [("indexes", PyVal.vNatTuple (parseBidx b))]
   | none => [])

/-- Behaviour of the opaque Reader collaborator for one request: its asset
catalog, and its two operations, either of which may raise. -/
structure ReaderBehavior where
  assets : List String
  infoFn : Kwargs → Except PyErr (List (String × PyVal))
  metadataFn : PyVal → PyVal → Kwargs → Except PyErr (List (String × PyVal))

/-- Responses the two overridden endpoints can produce: a bare list of asset
names (the catalog branch of the info endpoint) or a mapping from asset name
to a per-asset record. -/
inductive StacResponse where
  | names (l : List String)
  | mapping (m : List (String × PyVal))
  deriving DecidableEq, Repr

/-- Embedding of the Python with-statement over a Reader: the body runs on
the opened reader and the release hook of the reader runs exactly once
afterwards, both when the body returns normally (including an early return)
and when it raises. The second component counts release calls. -/
def withReader (rb : ReaderBehavior)
    (body : ReaderBehavior → Except PyErr StacResponse) :
    Except PyErr StacResponse × Nat :=
  match body rb with
  | Except.ok v => (Except.ok v, 1)
  | Except.error e => (Except.error e, 1)

/-- Step of a Python call that expands several keyword dictionaries: each
entry is added in order, and an entry whose key is already present raises
TypeError, mirroring the duplicate-keyword check of a Python call site. -/
def addKw (acc : Except PyErr Kwargs) (kv : String × PyVal) :
    Except PyErr Kwargs :=
  match acc with
  | Except.error e => Except.error e
  | Except.ok l =>
    if l.any fun p => p.1 = kv.1 then Except.error PyErr.typeError
    else Except.ok (l ++ [kv])

/-- Keyword expansion of several dictionaries at one Python call site. -/
def mergeKwargs (srcs : List Kwargs) : Except PyErr Kwargs :=
  srcs.flatten.foldl addKw (Except.ok [])

/-- Python truthiness of the values that can sit in the kwargs container. -/
def pyTruthy : PyVal → Bool
  | PyVal.vStr s => !(s == "")
  | PyVal.vStrList l => !l.isEmpty
  | PyVal.vNatTuple l => !l.isEmpty

/-- Guard of the catalog branch of the info handler, embedding the check
that kwargs.get applied to the assets key is falsy: the key is missing (get
yields None) or its value is falsy. -/
def noAssetsSelected (kw : Kwargs) : Bool :=
  match lookupKw kw "assets" with
  | none => true
  | some v => !pyTruthy v

/-- Body of the info handler, run on the opened reader: when no assets are
selected return the asset catalog, otherwise call the per-asset info
operation of the reader with the asset kwargs expanded together with the
extra-dependency kwargs. -/
def infoBody (src : ReaderBehavior) (assetKw extraKw : Kwargs) :
    Except PyErr StacResponse :=
  if noAssetsSelected assetKw then
    Except.ok (StacResponse.names src.assets)
  else
    match mergeKwargs [assetKw, extraKw] with
    | Except.error e => Except.error e
    | Except.ok kw => (src.infoFn kw).map StacResponse.mapping

/-- The info endpoint handler: build the asset-and-bidx bundle from the two
raw query values, open the reader for the scope of the request, and run the
info body in that scope. -/
def infoHandler (rb : ReaderBehavior) (assets bidx : Option String)
    (extraKw : Kwargs) : Except PyErr StacResponse × Nat :=
  withReader rb fun src =>
    infoBody src (AssetsBidxParams.postInit assets bidx) extraKw

/-- Body of the metadata handler, run on the opened reader: call the
metadata operation of the reader with positional pmin and pmax and the
asset, metadata and extra keyword dictionaries expanded at the call site. -/
def metadataBody (src : ReaderBehavior) (pmin pmax : PyVal)
    (assetKw metaKw extraKw : Kwargs) : Except PyErr StacResponse :=
  match mergeKwargs [assetKw, metaKw, extraKw] with
  | Except.error e => Except.error e
  | Except.ok kw => (src.metadataFn pmin pmax kw).map StacResponse.mapping

/-- The metadata endpoint handler: build the asset-and-bidx bundle from the
raw query values, open the reader for the scope of the request, and run the
metadata body in that scope. The pmin and pmax values and the metadata
kwargs come from the metadata-parameter bundle of the base factory, the
extra kwargs from the additional-dependency collaborator; both are opaque
mappings here. -/
def metadataHandler (rb : ReaderBehavior) (pmin pmax : PyVal)
    (assets bidx : Option String) (metaKw extraKw : Kwargs) :
    Except PyErr StacResponse × Nat :=
  withReader rb fun src =>
    metadataBody src pmin pmax (AssetsBidxParams.postInit assets bidx)
      metaKw extraKw

/-- Endpoint names registered by the base tiling factory. -/
inductive EndpointName where
  | info | metadata | tile | tilejson | bounds | preview
  deriving DecidableEq, Repr

/-- Endpoint implementations: the inherited base implementation of a given
endpoint, or one of the two overriding implementations defined by the STAC
tiler class. -/
inductive EndpointImpl where
  | base (n : EndpointName)
  | stacInfo
  | stacMetadata
  deriving DecidableEq, Repr

/-- Modelled from the spec: the base factory TMSTilerFactory (its module is
outside the embedded file) registers one endpoint implementation per
endpoint name of its registration protocol. -/
def TMSTilerFactory.registrations (n : EndpointName) : EndpointImpl :=
  EndpointImpl.base n

/-- Method overrides declared by the STACTiler class body: exactly the info
and metadata registration methods are redefined. -/
def STACTiler.overrides : EndpointName → Option EndpointImpl
  | EndpointName.info => some EndpointImpl.stacInfo
  | EndpointName.metadata => some EndpointImpl.stacMetadata
  | _ => none

/-- Effective registration table of the STACTiler class: the override when
one is declared, the inherited base registration otherwise. -/
def STACTiler.registrations (n : EndpointName) : EndpointImpl :=
  (STACTiler.overrides n).getD (TMSTilerFactory.registrations n)

/-- A concrete reader behaviour used to evaluate the handlers on closed
inputs: a catalog of two assets, an info operation answering with a fixed
one-entry mapping, and a metadata operation answering with an empty one. -/
def cexReader : ReaderBehavior where
  assets := ["B1", "B2"]
  infoFn := fun _ => Except.ok [("B1", PyVal.vStr "i")]
  metadataFn := fun _ _ _ => Except.ok []

/-! Helper lemmas about the comma split. -/

theorem splitCommaList_ne_nil (cs : List Char) : splitCommaList cs ≠ [] := by
  cases cs with
  | nil => simp [splitCommaList]
  | cons c cs =>
    simp only [splitCommaList]
    split
    · simp
    · split <;> simp

theorem joinCommaList_cons_head (c : Char) (r : List Char)
    (rs : List (List Char)) :
    joinCommaList ((c :: r) :: rs) = c :: joinCommaList (r :: rs) := by
  cases rs <;> rfl

theorem joinCommaList_splitCommaList (cs : List Char) :
    joinCommaList (splitCommaList cs) = cs := by
  induction cs with
  | nil => rfl
  | cons c cs ih =>
    by_cases hc : c = ','
    · subst hc
      simp only [splitCommaList, if_pos rfl]
      rcases h : splitCommaList cs with _ | ⟨r, rs⟩
      · exact absurd h (splitCommaList_ne_nil cs)
      · rw [h] at ih
        simpa [joinCommaList] using ih
    · simp only [splitCommaList, if_neg hc]
      rcases h : splitCommaList cs with _ | ⟨r, rs⟩
      · exact absurd h (splitCommaList_ne_nil cs)
      · rw [h] at ih
        rw [joinCommaList_cons_head, ih]

theorem pyJoinComma_pySplitComma (s : String) :
    pyJoinComma (pySplitComma s) = s := by
  show String.mk (joinCommaList (((splitCommaList s.toList).map
    (fun cs => String.mk cs)).map String.toList)) = s
  rw [List.map_map]
  have hfun : (String.toList ∘ fun cs => String.mk cs) = id := by
    funext cs
    rfl
  rw [hfun, List.map_id, joinCommaList_splitCommaList]
  rfl

/-! Helper lemmas about the bundle containers. -/

theorem lookupKw_append_of_none (l1 l2 : Kwargs) (k : String)
    (h : lookupKw l1 k = none) :
    lookupKw (l1 ++ l2) k = lookupKw l2 k := by
  induction l1 with
  | nil => rfl
  | cons kv rest ih =>
    by_cases hk : kv.1 = k
    · simp [lookupKw, hk] at h
    · simp only [lookupKw, hk, if_false, List.cons_append] at h ⊢
      exact ih h

theorem lookupKw_append_of_some (l1 l2 : Kwargs) (k : String) (v : PyVal)
    (h : lookupKw l1 k = some v) :
    lookupKw (l1 ++ l2) k = some v := by
  induction l1 with
  | nil => simp [lookupKw] at h
  | cons kv rest ih =>
    by_cases hk : kv.1 = k
    · simp only [lookupKw, if_pos hk] at h
      simp only [List.cons_append, lookupKw, if_pos hk]
      exact h
    · simp only [lookupKw, if_neg hk] at h
      simp only [List.cons_append, lookupKw, if_neg hk]
      exact ih h

theorem lookupKw_postInit_assets (a b : Option String) :
    lookupKw (AssetsBidxParams.postInit a b) "assets" =
      a.map fun s => PyVal.vStrList (pySplitComma s) := by
  cases a <;> cases b <;> simp [AssetsBidxParams.postInit, lookupKw]

theorem lookupKw_postInit_indexes (a b : Option String) :
    lookupKw (AssetsBidxParams.postInit a b) "indexes" =
      b.map fun s => PyVal.vNatTuple (parseBidx s) := by
  cases a <;> cases b <;> simp [AssetsBidxParams.postInit, lookupKw]

theorem lookupKw_postInit_other (a b : Option String) (k : String)
    (h1 : k ≠ "assets") (h2 : k ≠ "indexes") :
    lookupKw (AssetsBidxParams.postInit a b) k = none := by
  cases a <;> cases b <;>
    simp [AssetsBidxParams.postInit, lookupKw, Ne.symm h1, Ne.symm h2]

theorem lookupKw_postInitExpr_assets (a e b : Option String) :
    lookupKw (AssetsBidxExprParams.postInit a e b) "assets" =
      a.map fun s => PyVal.vStrList (pySplitComma s) := by
  cases a <;> cases e <;> cases b <;>
    simp [AssetsBidxExprParams.postInit, lookupKw]

theorem lookupKw_postInitExpr_expression (a e b : Option String) :
    lookupKw (AssetsBidxExprParams.postInit a e b) "expression" =
      e.map PyVal.vStr := by
  cases a <;> cases e <;> cases b <;>
    simp [AssetsBidxExprParams.postInit, lookupKw]

theorem lookupKw_postInitExpr_indexes (a e b : Option String) :
    lookupKw (AssetsBidxExprParams.postInit a e b) "indexes" =
      b.map fun s => PyVal.vNatTuple (parseBidx s) := by
  cases a <;> cases e <;> cases b <;>
    simp [AssetsBidxExprParams.postInit, lookupKw]

theorem lookupKw_postInitExpr_other (a e b : Option String) (k : String)
    (h1 : k ≠ "assets") (h2 : k ≠ "expression") (h3 : k ≠ "indexes") :
    lookupKw (AssetsBidxExprParams.postInit a e b) k = none := by
  cases a <;> cases e <;> cases b <;>
    simp [AssetsBidxExprParams.postInit, lookupKw,
      Ne.symm h1, Ne.symm h2, Ne.symm h3]

/-! Helper lemmas relating the digit-run scanner to a split-based
characterization of maximal digit runs: splitting the character list at
every non-digit and dropping the empty fragments. -/

theorem modifyHead_fun_id (l : List (List Char)) :
    (l.modifyHead fun h => h) = l := by
  cases l <;> rfl

theorem digitRunsGo_eq (l : List Char) : ∀ acc : List Char,
    digitRunsGo l acc =
      ((l.splitOnP fun c => !c.isDigit).modifyHead
        fun h => acc.reverse ++ h).filter fun r => !r.isEmpty := by
  induction l with
  | nil =>
    intro acc
    rcases acc with _ | ⟨x, xs⟩
    · simp [digitRunsGo]
    · have hie : (xs.reverse ++ [x]).isEmpty = false := by
        simp
      simp [digitRunsGo, List.filter_cons, hie]
  | cons c cs ih =>
    intro acc
    by_cases hc : c.isDigit
    · rw [digitRunsGo]
      rw [if_pos hc, ih (c :: acc)]
      rw [List.splitOnP_cons]
      simp only [hc, Bool.not_true, Bool.false_eq_true, if_false,
        List.modifyHead_modifyHead]
      have hfun : ((fun h => acc.reverse ++ h) ∘ (List.cons c)) =
          fun h => (c :: acc).reverse ++ h := by
        funext h
        simp
      rw [hfun]
    · rw [digitRunsGo]
      rw [if_neg hc, List.splitOnP_cons]
      have hb : (!c.isDigit) = true := by
        simp [hc]
      simp only [hb, if_true]
      rcases acc with _ | ⟨x, xs⟩
      · simp only [if_pos rfl, ih ([] : List Char)]
        simp [List.filter_cons, modifyHead_fun_id]
      · have hne : (x :: xs) ≠ ([] : List Char) := by
          simp
        have hie : (xs.reverse ++ [x]).isEmpty = false := by
          simp
        rw [if_neg hne, ih ([] : List Char)]
        simp [List.filter_cons, modifyHead_fun_id, hie]

theorem digitRuns_eq_splitOnP (l : List Char) :
    digitRuns l =
      (l.splitOnP fun c => !c.isDigit).filter fun r => !r.isEmpty := by
  rw [digitRuns, digitRunsGo_eq l ([] : List Char)]
  simp [modifyHead_fun_id]

theorem parseBidx_eq_splitOnP (s : String) :
    parseBidx s =
      (((s.toList.splitOnP fun c => !c.isDigit).filter
        fun r => !r.isEmpty).map digitsToNat) := by
  rw [parseBidx, digitRuns_eq_splitOnP]

/-! Helper lemmas about keyword expansion at a call site. -/

theorem foldl_addKw_error (l : Kwargs) (e : PyErr) :
    l.foldl addKw (Except.error e) = Except.error e := by
  induction l with
  | nil => rfl
  | cons kv rest ih =>
    simp only [List.foldl_cons, addKw]
    exact ih

theorem foldl_addKw_ok (l : Kwargs) : ∀ acc : Kwargs,
    (acc.map Prod.fst).Nodup →
    l.foldl addKw (Except.ok acc) =
      if ((acc ++ l).map Prod.fst).Nodup then Except.ok (acc ++ l)
      else Except.error PyErr.typeError := by
  induction l with
  | nil =>
    intro acc hacc
    simp [hacc]
  | cons kv rest ih =>
    intro acc hacc
    by_cases hmem : kv.1 ∈ acc.map Prod.fst
    · have hany : (acc.any fun p => p.1 = kv.1) = true := by
        rw [List.any_eq_true]
        obtain ⟨p, hp, hpe⟩ := List.mem_map.1 hmem
        exact ⟨p, hp, by simp [hpe]⟩
      have hnd : ¬ (((acc ++ kv :: rest).map Prod.fst).Nodup) := by
        simp only [List.map_append, List.nodup_append]
        rintro ⟨-, -, hdisj⟩
        exact hdisj hmem (by simp)
      simp only [List.foldl_cons, addKw, hany, if_true,
        foldl_addKw_error, hnd, if_false]
    · have hany : (acc.any fun p => p.1 = kv.1) = false := by
        rw [List.any_eq_false]
        intro p hp
        simp only [decide_eq_true_eq]
        intro hpe
        exact hmem (List.mem_map.2 ⟨p, hp, hpe⟩)
      have hacc2 : (((acc ++ [kv]).map Prod.fst).Nodup) := by
        simp only [List.map_append, List.nodup_append]
        refine ⟨hacc, by simp, ?_⟩
        intro x hx hx2
        simp only [List.map_cons, List.map_nil, List.mem_cons,
          List.not_mem_nil, or_false] at hx2
        subst hx2
        exact hmem hx
      simp only [List.foldl_cons, addKw, hany, Bool.false_eq_true, if_false]
      rw [ih (acc ++ [kv]) hacc2]
      simp [List.append_assoc]

theorem mergeKwargs_eq (srcs : List Kwargs) :
    mergeKwargs srcs =
      if ((srcs.flatten).map Prod.fst).Nodup then Except.ok srcs.flatten
      else Except.error PyErr.typeError := by
  have h := foldl_addKw_ok srcs.flatten ([] : Kwargs) (by simp)
  simpa [mergeKwargs] using h

/-! Helper lemmas about the with-statement embedding. -/

theorem withReader_fst (rb : ReaderBehavior)
    (body : ReaderBehavior → Except PyErr StacResponse) :
    (withReader rb body).1 = body rb := by
  rcases h : body rb with e | v <;> simp [withReader, h]

theorem withReader_snd (rb : ReaderBehavior)
    (body : ReaderBehavior → Except PyErr StacResponse) :
    (withReader rb body).2 = 1 := by
  rcases h : body rb with e | v <;> simp [withReader, h]

theorem infoHandler_none_assets (rb : ReaderBehavior) (bidx : Option String)
    (extraKw : Kwargs) :
    infoHandler rb none bidx extraKw =
      (Except.ok (StacResponse.names rb.assets), 1) := by
  have hg : noAssetsSelected (AssetsBidxParams.postInit none bidx) = true := by
    cases bidx <;>
      simp [noAssetsSelected, AssetsBidxParams.postInit, lookupKw]
  simp [infoHandler, withReader, infoBody, hg]

/-- C1: for every request to the info endpoint in which the assets query
parameter is absent, the handler returns the asset-name catalog of the
Reader verbatim as a bare list, and the result does not depend on the bidx
query value. -/
theorem info_absent_assets_returns_catalog (rb : ReaderBehavior)
    (bidx bidx2 : Option String) (extraKw : Kwargs) :
    infoHandler rb none bidx extraKw =
      (Except.ok (StacResponse.names rb.assets), 1) ∧
    infoHandler rb none bidx extraKw = infoHandler rb none bidx2 extraKw := by
  refine ⟨infoHandler_none_assets rb bidx extraKw, ?_⟩
  rw [infoHandler_none_assets rb bidx extraKw,
    infoHandler_none_assets rb bidx2 extraKw]

/-- C2: the bidx parse extracts every maximal run of decimal digits in
order of appearance and converts each run to an integer, ignoring every
other character (stated as equality with splitting the characters at
non-digits and dropping empty fragments); the string of one comma-separated
list parses as in the spec examples; an absent bidx leaves the indexes key
out of the bundle while a present one always sets it. -/
theorem bidx_digit_run_extraction :
    (∀ s : String, parseBidx s =
      (((s.toList.splitOnP fun c => !c.isDigit).filter
        fun r => !r.isEmpty).map digitsToNat)) ∧
    parseBidx "1,2,05" = [1, 2, 5] ∧
    parseBidx "" = [] ∧
    (∀ a : Option String,
      lookupKw (AssetsBidxParams.postInit a none) "indexes" = none) ∧
    (∀ a : Option String, ∀ s : String,
      lookupKw (AssetsBidxParams.postInit a (some s)) "indexes" =
        some (PyVal.vNatTuple (parseBidx s))) := by
  refine ⟨parseBidx_eq_splitOnP, by decide, rfl, ?_, ?_⟩
  · intro a
    simpa using lookupKw_postInit_indexes a none
  · intro a s
    simpa using lookupKw_postInit_indexes a (some s)

/-- C3: a present assets selector is split on commas and stored verbatim in
the bundle, preserving order, duplicates, spacing and empty fields (the
comma join of the parse recovers the raw string exactly); an absent assets
selector leaves the assets key out of the bundle. -/
theorem assets_split_verbatim :
    (∀ s : String, ∀ b : Option String,
      lookupKw (AssetsBidxParams.postInit (some s) b) "assets" =
        some (PyVal.vStrList (pySplitComma s))) ∧
    (∀ b : Option String,
      lookupKw (AssetsBidxParams.postInit none b) "assets" = none) ∧
    (∀ s : String, pyJoinComma (pySplitComma s) = s) ∧
    pySplitComma "B1,B2" = ["B1", "B2"] ∧
    pySplitComma " a ,a,,a" = [" a ", "a", "", "a"] := by
  refine ⟨?_, ?_, pyJoinComma_pySplitComma, by decide, by decide⟩
  · intro s b
    simpa using lookupKw_postInit_assets (some s) b
  · intro b
    simpa using lookupKw_postInit_assets none b

/-- C6: for every request to the info or metadata endpoint, over every
reader behaviour (including operations that raise) and every combination of
selectors, the opened reader is released exactly once. -/
theorem reader_released_exactly_once (rb : ReaderBehavior)
    (assets bidx : Option String) (pmin pmax : PyVal)
    (metaKw extraKw : Kwargs) :
    (infoHandler rb assets bidx extraKw).2 = 1 ∧
    (metadataHandler rb pmin pmax assets bidx metaKw extraKw).2 = 1 :=
  ⟨withReader_snd rb _, withReader_snd rb _⟩

/-- C7: the metadata endpoint either propagates an error or answers with a
mapping from asset name to a record; it never answers with the bare
asset-name list, whether or not the assets selector was supplied. -/
theorem metadata_always_mapping (rb : ReaderBehavior) (pmin pmax : PyVal)
    (assets bidx : Option String) (metaKw extraKw : Kwargs) :
    (∃ e, (metadataHandler rb pmin pmax assets bidx metaKw extraKw).1 =
      Except.error e) ∨
    (∃ m, (metadataHandler rb pmin pmax assets bidx metaKw extraKw).1 =
      Except.ok (StacResponse.mapping m)) := by
  rcases hmk : mergeKwargs
    [AssetsBidxParams.postInit assets bidx, metaKw, extraKw] with e | kw
  · refine Or.inl ⟨e, ?_⟩
    simp [metadataHandler, withReader_fst, metadataBody, hmk]
  · rcases hfn : rb.metadataFn pmin pmax kw with e2 | m
    · refine Or.inl ⟨e2, ?_⟩
      simp [metadataHandler, withReader_fst, metadataBody, hmk, hfn,
        Except.map]
    · refine Or.inr ⟨m, ?_⟩
      simp [metadataHandler, withReader_fst, metadataBody, hmk, hfn,
        Except.map]

/-- C8: the keys present in each bundle variant are exactly the ones whose
selector the client supplied, in declaration order, and each entry is a
function of its own selector alone; an absent selector never contributes a
default-valued key. -/
theorem bundle_keys_exactly_supplied (a e b : Option String) :
    (AssetsBidxParams.postInit a b).map Prod.fst =
      (a.map fun _ => "assets").toList ++
      (b.map fun _ => "indexes").toList ∧
    (AssetsBidxExprParams.postInit a e b).map Prod.fst =
      ((a.map fun _ => "assets").toList ++
        (e.map fun _ => "expression").toList) ++
      (b.map fun _ => "indexes").toList ∧
    lookupKw (AssetsBidxParams.postInit a b) "assets" =
      a.map (fun s => PyVal.vStrList (pySplitComma s)) ∧
    lookupKw (AssetsBidxParams.postInit a b) "indexes" =
      b.map (fun s => PyVal.vNatTuple (parseBidx s)) ∧
    lookupKw (AssetsBidxExprParams.postInit a e b) "assets" =
      a.map (fun s => PyVal.vStrList (pySplitComma s)) ∧
    lookupKw (AssetsBidxExprParams.postInit a e b) "expression" =
      e.map PyVal.vStr ∧
    lookupKw (AssetsBidxExprParams.postInit a e b) "indexes" =
      b.map (fun s => PyVal.vNatTuple (parseBidx s)) := by
  refine ⟨?_, ?_, lookupKw_postInit_assets a b,
    lookupKw_postInit_indexes a b, lookupKw_postInitExpr_assets a e b,
    lookupKw_postInitExpr_expression a e b,
    lookupKw_postInitExpr_indexes a e b⟩
  · cases a <;> cases b <;> simp [AssetsBidxParams.postInit]
  · cases a <;> cases e <;> cases b <;> simp [AssetsBidxExprParams.postInit]

/-- C4 counterexample: at a concrete request where the asset bundle and the
metadata bundle both define the assets keyword, the metadata call raises
TypeError instead of succeeding with the later value, while the same
request without the duplicate succeeds. -/
theorem metadata_duplicate_key_raises_cex :
    (metadataHandler cexReader (PyVal.vStr "2") (PyVal.vStr "98")
      (some "B1") none [("assets", PyVal.vStr "dup")] []).1 =
      Except.error PyErr.typeError ∧
    (metadataHandler cexReader (PyVal.vStr "2") (PyVal.vStr "98")
      (some "B1") none [] []).1 =
      Except.ok (StacResponse.mapping []) :=
  ⟨rfl, rfl⟩

/-- C4 amended: expanding the asset bundle, the metadata bundle and the
extra keyword arguments at the metadata call site succeeds exactly when the
key names of the three sources are pairwise distinct, in which case the
metadata operation of the Reader receives the three sources concatenated in
merge order; a same-named key in two sources makes the call raise TypeError
(duplicate keyword argument), which the handler propagates, rather than
applying a last-write-wins merge. -/
theorem metadata_kwargs_merge_amended (rb : ReaderBehavior)
    (pmin pmax : PyVal) (assets bidx : Option String)
    (metaKw extraKw : Kwargs) :
    (metadataHandler rb pmin pmax assets bidx metaKw extraKw).1 =
      if ((AssetsBidxParams.postInit assets bidx ++
            (metaKw ++ extraKw)).map Prod.fst).Nodup
      then (rb.metadataFn pmin pmax
              (AssetsBidxParams.postInit assets bidx ++
                (metaKw ++ extraKw))).map StacResponse.mapping
      else Except.error PyErr.typeError := by
  have hm := mergeKwargs_eq
    [AssetsBidxParams.postInit assets bidx, metaKw, extraKw]
  simp only [List.flatten_cons, List.flatten_nil, List.append_nil] at hm
  by_cases hnd : ((AssetsBidxParams.postInit assets bidx ++
      (metaKw ++ extraKw)).map Prod.fst).Nodup
  · rw [if_pos hnd] at hm ⊢
    rcases hfn : rb.metadataFn pmin pmax
        (AssetsBidxParams.postInit assets bidx ++ (metaKw ++ extraKw))
      with e | m
    · simp [metadataHandler, withReader_fst, metadataBody, hm, hfn,
        Except.map]
    · simp [metadataHandler, withReader_fst, metadataBody, hm, hfn,
        Except.map]
  · rw [if_neg hnd] at hm ⊢
    simp [metadataHandler, withReader_fst, metadataBody, hm]

/-- C5 counterexample: a request carrying the explicitly empty assets
selector parses it to a list holding one empty string, not to an empty
sequence, and the handler answers with the mapping produced by the
per-asset info operation instead of the two-element asset catalog of the
reader, so the catalog-listing branch is not taken. -/
theorem info_empty_assets_selector_cex :
    pySplitComma "" = [""] ∧
    (infoHandler cexReader (some "") none []).1 =
      Except.ok (StacResponse.mapping [("B1", PyVal.vStr "i")]) ∧
    cexReader.assets = ["B1", "B2"] :=
  ⟨rfl, rfl, rfl⟩

/-- C5 amended: an explicitly empty assets selector parses to the
one-element sequence holding the empty string, which is truthy, so the
catalog-branch guard is false and the handler takes the per-asset info
branch, expanding the bundle (with assets bound to that one-element list)
into the info call of the Reader. -/
theorem info_empty_assets_selector_amended (rb : ReaderBehavior)
    (bidx : Option String) (extraKw : Kwargs) :
    pySplitComma "" = [""] ∧
    noAssetsSelected (AssetsBidxParams.postInit (some "") bidx) = false ∧
    (infoHandler rb (some "") bidx extraKw).1 =
      (match mergeKwargs
          [AssetsBidxParams.postInit (some "") bidx, extraKw] with
       | Except.error e2 => Except.error e2
       | Except.ok kw => (rb.infoFn kw).map StacResponse.mapping) := by
  have hp : pySplitComma "" = [""] := rfl
  have hg : noAssetsSelected
      (AssetsBidxParams.postInit (some "") bidx) = false := by
    cases bidx <;>
      simp [noAssetsSelected, AssetsBidxParams.postInit, lookupKw,
        pyTruthy, hp]
  refine ⟨hp, hg, ?_⟩
  simp [infoHandler, withReader_fst, infoBody, hg]

/-- C9: the STAC tiler class declares an override for exactly two endpoint
names of the registration protocol of the base factory, info and metadata,
and its effective registration for every other endpoint name is the
inherited base registration unmodified. -/
theorem stac_overrides_exactly_info_and_metadata :
    (∀ n : EndpointName, (STACTiler.overrides n).isSome =
      decide (n = EndpointName.info ∨ n = EndpointName.metadata)) ∧
    STACTiler.registrations EndpointName.info = EndpointImpl.stacInfo ∧
    STACTiler.registrations EndpointName.metadata =
      EndpointImpl.stacMetadata ∧
    STACTiler.registrations EndpointName.tile =
      TMSTilerFactory.registrations EndpointName.tile ∧
    STACTiler.registrations EndpointName.tilejson =
      TMSTilerFactory.registrations EndpointName.tilejson ∧
    STACTiler.registrations EndpointName.bounds =
      TMSTilerFactory.registrations EndpointName.bounds ∧
    STACTiler.registrations EndpointName.preview =
      TMSTilerFactory.registrations EndpointName.preview := by
  refine ⟨fun n => ?_, rfl, rfl, rfl, rfl, rfl, rfl⟩
  cases n <;> rfl

/-- C10: for every pair of raw assets and bidx query values, the bundle
variant with expression support stores exactly the same assets and indexes
entries as the asset-only variant, and the two bundles agree on every key
other than the expression key, which carries the raw expression string when
supplied. -/
theorem expr_variant_matches_asset_variant (a e b : Option String) :
    lookupKw (AssetsBidxExprParams.postInit a e b) "assets" =
      lookupKw (AssetsBidxParams.postInit a b) "assets" ∧
    lookupKw (AssetsBidxExprParams.postInit a e b) "indexes" =
      lookupKw (AssetsBidxParams.postInit a b) "indexes" ∧
    lookupKw (AssetsBidxExprParams.postInit a e b) "expression" =
      e.map PyVal.vStr ∧
    (∀ k : String, k ≠ "expression" →
      lookupKw (AssetsBidxExprParams.postInit a e b) k =
        lookupKw (AssetsBidxParams.postInit a b) k) := by
  refine ⟨?_, ?_, lookupKw_postInitExpr_expression a e b, ?_⟩
  · rw [lookupKw_postInitExpr_assets, lookupKw_postInit_assets]
  · rw [lookupKw_postInitExpr_indexes, lookupKw_postInit_indexes]
  · intro k hk
    by_cases h1 : k = "assets"
    · subst h1
      rw [lookupKw_postInitExpr_assets, lookupKw_postInit_assets]
    · by_cases h2 : k = "indexes"
      · subst h2
        rw [lookupKw_postInitExpr_indexes, lookupKw_postInit_indexes]
      · rw [lookupKw_postInitExpr_other a e b k h1 hk h2,
          lookupKw_postInit_other a b k h1 h2]

/-- Witness for C10: the two bundle variants agree on the indexes key at a
concrete pair of query values, with the inner hypothesis discharged at the
concrete key. -/
theorem expr_variant_matches_asset_variant_witness :
    lookupKw (AssetsBidxExprParams.postInit (some "B1,B2") (some "B1/B2")
      (some "1,2")) "indexes" =
      lookupKw (AssetsBidxParams.postInit (some "B1,B2") (some "1,2"))
        "indexes" :=
  (expr_variant_matches_asset_variant (some "B1,B2") (some "B1/B2")
    (some "1,2")).2.2.2 "indexes" (by decide)

end Titiler
